import Mathlib

/-!
# Verification of the chess-competition move-selection engine

Shallow embedding of `src/chess-bot/chess-simulator.cpp`.  The board
representation, move generation, game-over detection and notation code live in
the external collaborator library `chess.hpp` (spec §1, §6); that library is
not part of the repository, so it is modelled abstractly from the spec's
contract as the structure `Collab` below.  Everything else (evaluation terms,
move ordering, transposition table, quiescence, alpha-beta/PVS search and the
iterative-deepening driver) is translated directly from the C++ source.

Machine integers (`int`, `uint64_t`) are modelled as `Int`/`Nat`; none of the
verified properties depend on wrap-around behaviour.  Global mutable state
(`transTable`, `killerMoves`, `historyHeuristic`, the poll clock) is threaded
explicitly as the record `SearchState`; the wall clock behind `outOfTime()` is
modelled as an arbitrary boolean oracle indexed by the number of polls made so
far, which covers every possible time budget and clock behaviour.
-/

/-- Colour of a side, `chess::Color`. -/
inductive Color where
  | white
  | black
deriving DecidableEq, Repr

/-- Flip a colour. -/
def Color.flip : Color → Color
  | .white => .black
  | .black => .white

/-- Piece codes, `chess::Piece::underlying` (including `NONE`). -/
inductive Piece where
  | wp | wn | wb | wr | wq | wk
  | bp | bn | bb | br | bq | bk
  | none
deriving DecidableEq, Repr

/-- Colour of a non-empty piece. -/
def Piece.color : Piece → Option Color
  | .wp | .wn | .wb | .wr | .wq | .wk => some .white
  | .bp | .bn | .bb | .br | .bq | .bk => some .black
  | .none => Option.none

/-- Game-over verdict as consumed by the engine: `board.isGameOver().second`.
The detector reports the result from the side to move's perspective, so a
checkmated (or otherwise lost) node is `LOSE`; `chess-simulator.cpp` lines
501-507 treat every non-`NONE`, non-`DRAW` verdict as a loss at the node. -/
inductive GameResult where
  | NONE
  | DRAW
  | LOSE
deriving DecidableEq, Repr

/-- `NodeType` from `chess-simulator.cpp` line 26. -/
inductive NodeType where
  | EXACT
  | LOWERBOUND
  | UPPERBOUND
deriving DecidableEq, Repr

/-- A move value, `chess::Move`: from-square, to-square (0..63) and an
optional promotion piece; compared by value equality (spec §3).  Squares are
kept as `Nat` mirroring the C++ `int`/bitfield indices. -/
structure Mv where
  fromSq : Nat
  toSq : Nat
  promo : Option Piece := Option.none
deriving DecidableEq, Repr

/-- The default-constructed `chess::Move` used to initialise killer slots. -/
def Mv.null : Mv := { fromSq := 0, toSq := 0, promo := Option.none }

instance : Inhabited Mv := ⟨Mv.null⟩

/-- `INF` (line 11). -/
def INF : Int := 1000000

/-- `MATE_SCORE` (line 12). -/
def MATE_SCORE : Int := 100000

/-- `MAX_DEPTH` (line 13). -/
def MAX_DEPTH : Nat := 5

/-- `TT_SIZE = 1 << 22` (line 35). -/
def TT_SIZE : Nat := 2 ^ 22

/-- `TTEntry` (lines 28-32).  `depth` is a C++ `int` (the clear sentinel is
`-1`), hence `Int`. -/
structure TTEntry where
  depth : Int
  score : Int
  type : NodeType
deriving DecidableEq, Repr

/-- The transposition table `transTable` (line 36), as a map from slot index
to entry. -/
abbrev TTable : Type := Nat → TTEntry

/-- `probeTT` (lines 38-41): returns the slot at index `hash & (TT_SIZE - 1)`;
since `TT_SIZE` is a power of two this mask equals `hash % TT_SIZE`. -/
def probeTT (tt : TTable) (hash : Nat) : TTEntry :=
  tt (hash % TT_SIZE)

/-- `storeTT` (lines 43-53): depth-preferred replacement — the slot is
overwritten exactly when the stored entry's depth is `<=` the incoming
depth. -/
def storeTT (tt : TTable) (hash : Nat) (depth : Int) (score : Int)
    (type : NodeType) : TTable :=
  if (probeTT tt hash).depth ≤ depth then
    fun i => if i = hash % TT_SIZE then ⟨depth, score, type⟩ else tt i
  else
    tt

/-- `clearTT` (lines 55-59): resets every entry's depth to the sentinel `-1`
(score and type are left untouched by the C++ loop). -/
def clearTT (tt : TTable) : TTable :=
  fun i => { tt i with depth := -1 }

/-- `pieceValue` (lines 116-130). -/
def pieceValue : Piece → Int
  | .wp | .bp => 100
  | .wn | .bn => 320
  | .wb | .bb => 330
  | .wr | .br => 500
  | .wq | .bq => 900
  | _ => 0

/-- Modelled from the spec: the external collaborator library (`chess.hpp`,
spec §1 and §6) that owns the board representation, legal-move generation,
make/unmake, capture and game-over detection, and Zobrist hashing.  `Pos` is
the board state (piece placement readable per square, side to move, …).  The
two `Prop` fields record the contract the engine relies on: the null move
used by the mobility term is exactly reversible (spec §4.1, §6 "reversible,
in-place"), and making a capture strictly shrinks the finite stock of
capturable material (spec §4.4: quiescence "relies on captures being finite
per branch"). -/
structure Collab where
  Pos : Type
  pieceAt : Pos → Nat → Piece
  sideToMove : Pos → Color
  legalMoves : Pos → List Mv
  makeMove : Pos → Mv → Pos
  makeNullMove : Pos → Pos
  unmakeNullMove : Pos → Pos
  isCapture : Pos → Mv → Bool
  gameOver : Pos → GameResult
  hash : Pos → Nat
  parse : String → Pos
  unmake_null : ∀ p, unmakeNullMove (makeNullMove p) = p
  capMeasure : Pos → Nat
  capMeasure_lt : ∀ p m, isCapture p m = true →
    capMeasure (makeMove p m) < capMeasure p

/-- `knightPST` (lines 64-73). -/
def knightPST : List Int :=
  [-50,-40,-30,-30,-30,-30,-40,-50,
   -40,-20,  0,  0,  0,  0,-20,-40,
   -30,  0, 10, 15, 15, 10,  0,-30,
   -30,  5, 15, 20, 20, 15,  5,-30,
   -30,  0, 15, 20, 20, 15,  0,-30,
   -30,  5, 10, 15, 15, 10,  5,-30,
   -40,-20,  0,  5,  5,  0,-20,-40,
   -50,-40,-30,-30,-30,-30,-40,-50]

/-- `pawnPST` (lines 75-84). -/
def pawnPST : List Int :=
  [ 0,  0,  0,  0,  0,  0,  0,  0,
    5, 10, 10,-20,-20, 10, 10,  5,
    5, -5,-10,  0,  0,-10, -5,  5,
    0,  0,  0, 20, 20,  0,  0,  0,
    5,  5, 10, 25, 25, 10,  5,  5,
   10, 10, 20, 30, 30, 20, 10, 10,
   50, 50, 50, 50, 50, 50, 50, 50,
    0,  0,  0,  0,  0,  0,  0,  0]

/-- `bishopPST` (lines 86-95). -/
def bishopPST : List Int :=
  [-20,-10,-10,-10,-10,-10,-10,-20,
   -10,  5,  0,  0,  0,  0,  5,-10,
   -10, 10, 10, 10, 10, 10, 10,-10,
   -10,  0, 10, 10, 10, 10,  0,-10,
   -10,  5,  5, 10, 10,  5,  5,-10,
   -10,  0,  5, 10, 10,  5,  0,-10,
   -10,  0,  0,  0,  0,  0,  0,-10,
   -20,-10,-10,-10,-10,-10,-10,-20]

/-- `rookPST` (lines 96-105). -/
def rookPST : List Int :=
  [ 0,  0,  5, 10, 10,  5,  0,  0,
   -5,  0,  0,  0,  0,  0,  0, -5,
   -5,  0,  0,  0,  0,  0,  0, -5,
   -5,  0,  0,  0,  0,  0,  0, -5,
   -5,  0,  0,  0,  0,  0,  0, -5,
   -5,  0,  0,  0,  0,  0,  0, -5,
    5, 10, 10, 10, 10, 10, 10,  5,
    0,  0,  5, 10, 10,  5,  0,  0]

/-- `queenPST` (lines 106-115). -/
def queenPST : List Int :=
  [-20,-10,-10, -5, -5,-10,-10,-20,
   -10,  0,  0,  0,  0,  0,  0,-10,
   -10,  0,  5,  5,  5,  5,  0,-10,
    -5,  0,  5,  5,  5,  5,  0, -5,
     0,  0,  5,  5,  5,  5,  0, -5,
   -10,  5,  5,  5,  5,  5,  0,-10,
   -10,  0,  5,  0,  0,  0,  0,-10,
   -20,-10,-10, -5, -5,-10,-10,-20]

/-- Array indexing into a piece-square table. -/
def pstAt (t : List Int) (i : Nat) : Int := t.getD i 0

/-- `evaluateMaterial` (lines 131-150). -/
def evaluateMaterial (C : Collab) (b : C.Pos) : Int :=
  (List.range 64).foldl
    (fun score i =>
      let piece := C.pieceAt b i
      if piece = Piece.none then score
      else
        let val := pieceValue piece
        if piece.color = some Color.white then score + val else score - val)
    0

/-- `evaluateMobility` (lines 151-172), as a pure function of the position;
`evaluateMobilityS` below is the state-passing version that also records the
null-move make/unmake pair.  Note the two guards read `sideToMove` before
resp. after the null move, exactly as the source does. -/
def evaluateMobility (C : Collab) (b : C.Pos) : Int :=
  let whiteMoves := C.legalMoves b
  let whiteMob : Int := if C.sideToMove b = Color.white then whiteMoves.length else 0
  let b1 := C.makeNullMove b
  let blackMoves := C.legalMoves b1
  let blackMob : Int := if C.sideToMove b1 = Color.black then blackMoves.length else 0
  (whiteMob - blackMob) * 2

/-- `evaluateMobility` with the board mutation made explicit: the null move is
applied, the second move count taken, and the null move reversed; the final
board is returned together with the score (lines 160 and 169). -/
def evaluateMobilityS (C : Collab) (b : C.Pos) : Int × C.Pos :=
  let whiteMoves := C.legalMoves b
  let whiteMob : Int := if C.sideToMove b = Color.white then whiteMoves.length else 0
  let b1 := C.makeNullMove b
  let blackMoves := C.legalMoves b1
  let blackMob : Int := if C.sideToMove b1 = Color.black then blackMoves.length else 0
  let b2 := C.unmakeNullMove b1
  ((whiteMob - blackMob) * 2, b2)

/-- `evaluateKingSafety` (lines 173-222). -/
def evaluateKingSafety (C : Collab) (b : C.Pos) : Int :=
  (List.range 64).foldl
    (fun score i =>
      let piece := C.pieceAt b i
      let score :=
        if piece = Piece.wk then
          let file : Int := (i : Int) % 8
          let rank : Int := (i : Int) / 8
          ([-1, 0, 1] : List Int).foldl
            (fun score df =>
              let f := file + df
              let r := rank + 1
              if 0 ≤ f ∧ f < 8 ∧ r < 8 then
                let sq := r * 8 + f
                if C.pieceAt b sq.toNat = Piece.wp then score + 15 else score
              else score)
            score
        else score
      if piece = Piece.bk then
        let file : Int := (i : Int) % 8
        let rank : Int := (i : Int) / 8
        ([-1, 0, 1] : List Int).foldl
          (fun score df =>
            let f := file + df
            let r := rank - 1
            if 0 ≤ f ∧ f < 8 ∧ 0 ≤ r then
              let sq := r * 8 + f
              if C.pieceAt b sq.toNat = Piece.bp then score - 15 else score
            else score)
          score
      else score)
    0

/-- `evaluatePawnStructure` (lines 223-312).  The C++ `passed`-flag loop with
`break` is equivalent to the quantified form used here: the pawn is passed
exactly when no opposing pawn sits on the same or an adjacent file strictly
ahead of it. -/
def evaluatePawnStructure (C : Collab) (b : C.Pos) : Int :=
  let score : Int :=
    (List.range 8).foldl
      (fun score file =>
        let whiteCount := ((List.range 8).filter
          (fun rank => C.pieceAt b (rank * 8 + file) = Piece.wp)).length
        let blackCount := ((List.range 8).filter
          (fun rank => C.pieceAt b (rank * 8 + file) = Piece.bp)).length
        let score : Int :=
          if whiteCount > 1 then score - 15 * ((whiteCount : Int) - 1) else score
        if blackCount > 1 then score + 15 * ((blackCount : Int) - 1) else score)
      0
  (List.range 64).foldl
    (fun score i =>
      let piece := C.pieceAt b i
      let score :=
        if piece = Piece.wp then
          let file : Int := (i : Int) % 8
          let rank : Nat := i / 8
          let passed := (List.range 8).all (fun r =>
            if rank + 1 ≤ r then
              ([file - 1, file, file + 1] : List Int).all (fun f =>
                if 0 ≤ f ∧ f < 8 then
                  decide (C.pieceAt b (r * 8 + f.toNat) ≠ Piece.bp)
                else true)
            else true)
          if passed then score + (rank : Int) * 10 else score
        else score
      if piece = Piece.bp then
        let file : Int := (i : Int) % 8
        let rank : Nat := i / 8
        let passed := (List.range 8).all (fun r =>
          if r < rank then
            ([file - 1, file, file + 1] : List Int).all (fun f =>
              if 0 ≤ f ∧ f < 8 then
                decide (C.pieceAt b (r * 8 + f.toNat) ≠ Piece.wp)
              else true)
          else true)
        if passed then score - ((7 : Int) - (rank : Int)) * 10 else score
      else score)
    score

/-- `evaluatePieceSquare` (lines 313-373): piece-square-table bonus (Black
reads the mirrored index `63 - sq`) plus the bishop-pair bonus. -/
def evaluatePieceSquare (C : Collab) (b : C.Pos) : Int :=
  let res :=
    (List.range 64).foldl
      (fun (acc : Int × Nat × Nat) i =>
        let piece := C.pieceAt b i
        if piece = Piece.none then acc
        else
          let score := acc.1
          let whiteBishops := acc.2.1
          let blackBishops := acc.2.2
          let sq := i
          let isWhite := piece.color = some Color.white
          let pstBonus : Int :=
            match piece with
            | .wp | .bp => if isWhite then pstAt pawnPST sq else pstAt pawnPST (63 - sq)
            | .wn | .bn => if isWhite then pstAt knightPST sq else pstAt knightPST (63 - sq)
            | .wb | .bb => if isWhite then pstAt bishopPST sq else pstAt bishopPST (63 - sq)
            | .wr | .br => if isWhite then pstAt rookPST sq else pstAt rookPST (63 - sq)
            | .wq | .bq => if isWhite then pstAt queenPST sq else pstAt queenPST (63 - sq)
            | _ => 0
          let whiteBishops := if piece = Piece.wb then whiteBishops + 1 else whiteBishops
          let blackBishops := if piece = Piece.bb then blackBishops + 1 else blackBishops
          let score := if isWhite then score + pstBonus else score - pstBonus
          (score, whiteBishops, blackBishops))
      ((0 : Int), (0 : Nat), (0 : Nat))
  let score := res.1
  let score := if res.2.1 ≥ 2 then score + 30 else score
  if res.2.2 ≥ 2 then score - 30 else score

/-- `evaluateDevelopment` (lines 374-400); square indices: B1=1, G1=6, C1=2,
F1=5, B8=57, G8=62, C8=58, F8=61. -/
def evaluateDevelopment (C : Collab) (b : C.Pos) : Int :=
  let score : Int := 0
  let score := if C.pieceAt b 1 = Piece.wn then score - 15 else score
  let score := if C.pieceAt b 6 = Piece.wn then score - 15 else score
  let score := if C.pieceAt b 57 = Piece.bn then score + 15 else score
  let score := if C.pieceAt b 62 = Piece.bn then score + 15 else score
  let score := if C.pieceAt b 2 = Piece.wb then score - 15 else score
  let score := if C.pieceAt b 5 = Piece.wb then score - 15 else score
  let score := if C.pieceAt b 58 = Piece.bb then score + 15 else score
  let score := if C.pieceAt b 61 = Piece.bb then score + 15 else score
  score

/-- `evaluateCenterControl` (lines 401-418); d4=27, e4=28, d5=35, e5=36. -/
def evaluateCenterControl (C : Collab) (b : C.Pos) : Int :=
  ([27, 28, 35, 36] : List Nat).foldl
    (fun score sq =>
      let piece := C.pieceAt b sq
      let score : Int := if piece = Piece.wp then score + 20 else score
      if piece = Piece.bp then score - 20 else score)
    0

/-- `evaluate` (lines 420-432): sum of all terms, negated to the mover's
perspective. -/
def evaluate (C : Collab) (b : C.Pos) : Int :=
  let score : Int := 0
  let score := score + evaluateMaterial C b
  let score := score + evaluatePawnStructure C b
  let score := score + evaluateMobility C b
  let score := score + evaluateKingSafety C b
  let score := score + evaluatePieceSquare C b
  let score := score + evaluateDevelopment C b
  let score := score + evaluateCenterControl C b
  if C.sideToMove b = Color.white then score else -score

/-- `evaluate` with the board threaded through the mobility term's null-move
mutation, so that the frame property (the board is returned unchanged) can be
stated: each later term reads the board handed back by `evaluateMobilityS`,
and the final board is returned alongside the score. -/
def evaluateS (C : Collab) (b : C.Pos) : Int × C.Pos :=
  let score : Int := 0
  let score := score + evaluateMaterial C b
  let score := score + evaluatePawnStructure C b
  let mob := evaluateMobilityS C b
  let b := mob.2
  let score := score + mob.1
  let score := score + evaluateKingSafety C b
  let score := score + evaluatePieceSquare C b
  let score := score + evaluateDevelopment C b
  let score := score + evaluateCenterControl C b
  ((if C.sideToMove b = Color.white then score else -score), b)

/-- The process-wide mutable state of the engine, threaded explicitly:
`transTable` (line 36), `killerMoves[128][2]` (line 61),
`historyHeuristic[2][64][64]` (line 62), plus the poll counter that feeds the
time oracle (the `searchStart`/`timeLimitMsGlobal` clock of lines 15-23). -/
structure SearchState where
  tt : TTable
  killers : Nat → Mv × Mv
  history : Nat → Nat → Nat → Int
  pollCount : Nat

/-- `outOfTime()` (lines 18-23): the wall clock is modelled as a boolean
oracle indexed by how many polls have been made so far; each call consumes
one tick.  Quantifying over all oracles covers every time budget. -/
def outOfTime (oracle : Nat → Bool) (st : SearchState) : Bool × SearchState :=
  (oracle st.pollCount, { st with pollCount := st.pollCount + 1 })

/-- Side index used for the history table (lines 451, 567): White is 0,
Black is 1. -/
def sideIdx : Color → Nat
  | .white => 0
  | .black => 1

/-- `captureScore` (lines 435-439): victim value minus attacker value, read
off the board squares of the move. -/
def captureScore (C : Collab) (b : C.Pos) (move : Mv) : Int :=
  pieceValue (C.pieceAt b move.toSq) - pieceValue (C.pieceAt b move.fromSq)

/-- `scoreMove` (lines 441-453): capture → `100000 + captureScore`; first
killer slot → 90000; second killer slot → 80000; otherwise the history
count.  (The third parameter is named `depth` as in the source; the callers
pass the search ply.) -/
def scoreMove (C : Collab) (st : SearchState) (b : C.Pos) (move : Mv)
    (depth : Nat) : Int :=
  if C.isCapture b move then 100000 + captureScore C b move
  else if move = (st.killers depth).1 then 90000
  else if move = (st.killers depth).2 then 80000
  else st.history (sideIdx (C.sideToMove b)) move.fromSq move.toSq

/-- Insertion step of the descending sort used by `orderMoves`. -/
def insertDesc (key : Mv → Int) (m : Mv) : List Mv → List Mv
  | [] => [m]
  | x :: xs => if key m > key x then m :: x :: xs else x :: insertDesc key m xs

/-- Descending insertion sort.  `orderMoves` (lines 455-461) uses
`std::sort` with the comparator `scoreMove a > scoreMove b`; the spec (§4.2)
requires only a descending ordering with arbitrary tie-breaks, which this
realises. -/
def sortDesc (key : Mv → Int) : List Mv → List Mv
  | [] => []
  | x :: xs => insertDesc key x (sortDesc key xs)

/-- `orderMoves` (lines 455-461). -/
def orderMoves (C : Collab) (st : SearchState) (b : C.Pos) (moves : List Mv)
    (depth : Nat) : List Mv :=
  sortDesc (fun m => scoreMove C st b m depth) moves

/-- The capture loop of `quiescence` (lines 475-488).  `qrec` is the
recursive quiescence call, restricted (for termination) to positions with a
strictly smaller capture measure; non-captures are skipped. -/
def qloop (C : Collab) (b : C.Pos)
    (qrec : (b2 : C.Pos) → C.capMeasure b2 < C.capMeasure b → Int → Int → Int) :
    List Mv → Int → Int → Int
  | [], alpha, _beta => alpha
  | move :: rest, alpha, beta =>
    if h : C.isCapture b move = true then
      let score := -(qrec (C.makeMove b move) (C.capMeasure_lt b move h)
        (-beta) (-alpha))
      if score ≥ beta then beta
      else
        let alpha := if score > alpha then score else alpha
        qloop C b qrec rest alpha beta
    else
      qloop C b qrec rest alpha beta

/-- `quiescence` (lines 463-491): stand-pat cutoff, possible alpha raise,
then the capture-only negamax loop.  Termination: every capture strictly
decreases the collaborator's capture measure (`capMeasure_lt`). -/
def quiescence (C : Collab) (b : C.Pos) (alpha beta : Int) : Int :=
  let standPat := evaluate C b
  if standPat ≥ beta then beta
  else
    let alpha := if alpha < standPat then standPat else alpha
    qloop C b (fun b2 _ a2 b3 => quiescence C b2 a2 b3) (C.legalMoves b)
      alpha beta
termination_by C.capMeasure b

/-- The killer-slot and history-table update applied when a non-capture move
improves alpha (lines 562-569): the move is pushed into killer slot 0 for
this ply (the previous slot 0 shifting to slot 1) and the history entry for
(side, from, to) is incremented by `depth * depth`; a capture leaves the
state untouched. -/
def killerHistUpdate (C : Collab) (b : C.Pos) (move : Mv)
    (nodeDepth ply : Nat) (st : SearchState) : SearchState :=
  if C.isCapture b move then st
  else
    let k := st.killers ply
    { st with
      killers := fun i => if i = ply then (move, k.1) else st.killers i,
      history := fun s f t =>
        if s = sideIdx (C.sideToMove b) ∧ f = move.fromSq ∧ t = move.toSq
        then st.history s f t + (nodeDepth : Int) * (nodeDepth : Int)
        else st.history s f t }

/-- The PVS child call of the `alphaBeta` move loop (lines 537-551): the
first move is searched with the full window, later moves with the null
window `[-alpha-1, -alpha]`, re-searched with the full window only when the
probe lands strictly inside `(alpha, beta)`.  `child` is the search call for
the child nodes (one depth less). -/
def abPVS (C : Collab)
    (child : C.Pos → Int → Int → Nat → SearchState → Int × SearchState)
    (b2 : C.Pos) (alpha beta : Int) (ply : Nat) (firstMove : Bool)
    (st : SearchState) : Int × SearchState :=
  if firstMove then
    let r := child b2 (-beta) (-alpha) (ply + 1) st
    (-r.1, r.2)
  else
    let r := child b2 (-alpha - 1) (-alpha) (ply + 1) st
    let s := -r.1
    if s > alpha ∧ s < beta then
      let r2 := child b2 (-beta) (-alpha) (ply + 1) r.2
      (-r2.1, r2.2)
    else (s, r.2)

/-- The move loop of `alphaBeta` (lines 533-574), with the PVS block factored
out as `abPVS`; the accumulators are `alpha`, `bestScore` and `firstMove`,
and the result is `(bestScore, alpha, state)` as left behind by the loop
(possibly exited early by the beta cutoff of line 572).  `nodeDepth` is the
`depth` of the enclosing node, used by the history bump `depth * depth` of
line 568. -/
def abLoop (C : Collab)
    (child : C.Pos → Int → Int → Nat → SearchState → Int × SearchState)
    (b : C.Pos) (nodeDepth : Nat) (ply : Nat) (beta : Int) :
    List Mv → Int → Int → Bool → SearchState → Int × Int × SearchState
  | [], alpha, bestScore, _firstMove, st => (bestScore, alpha, st)
  | move :: rest, alpha, bestScore, firstMove, st =>
    let res := abPVS C child (C.makeMove b move) alpha beta ply firstMove st
    let score := res.1
    let st := res.2
    let bestScore := if score > bestScore then score else bestScore
    let acc :=
      if score > alpha then (score, killerHistUpdate C b move nodeDepth ply st)
      else (alpha, st)
    let alpha := acc.1
    let st := acc.2
    if alpha ≥ beta then (bestScore, alpha, st)
    else abLoop C child b nodeDepth ply beta rest alpha bestScore false st

/-- `alphaBeta` (lines 493-587): time poll, quiescence hand-off at depth 0,
terminal scoring, transposition probe (EXACT short-circuit, bound tightening
and possible cutoff), move ordering, the PVS move loop, bound classification
and the final store.  Recursion is on `depth`. -/
def alphaBeta (C : Collab) (oracle : Nat → Bool) :
    Nat → C.Pos → Int → Int → Nat → SearchState → Int × SearchState
  | depth, b, alpha, beta, ply, st =>
    let poll := outOfTime oracle st
    let st := poll.2
    if poll.1 then (evaluate C b, st)
    else
      match depth with
      | 0 => (quiescence C b alpha beta, st)
      | d + 1 =>
        match C.gameOver b with
        | .DRAW => (0, st)
        | .LOSE => (-MATE_SCORE + ply, st)
        | .NONE =>
          let hash := C.hash b
          let e := probeTT st.tt hash
          let usable := e.depth ≥ ((d : Int) + 1)
          if usable ∧ e.type = NodeType.EXACT then (e.score, st)
          else
            let alpha :=
              if usable ∧ e.type = NodeType.LOWERBOUND then max alpha e.score
              else alpha
            let beta :=
              if usable ∧ e.type = NodeType.UPPERBOUND then min beta e.score
              else beta
            if usable ∧ alpha ≥ beta then (e.score, st)
            else
              let moves := orderMoves C st b (C.legalMoves b) ply
              let originalAlpha := alpha
              let res := abLoop C
                (fun b2 a2 b3 p2 s2 => alphaBeta C oracle d b2 a2 b3 p2 s2)
                b (d + 1) ply beta moves alpha (-INF) true st
              let bestScore := res.1
              let st := res.2.2
              let type :=
                if bestScore ≤ originalAlpha then NodeType.UPPERBOUND
                else if bestScore ≥ beta then NodeType.LOWERBOUND
                else NodeType.EXACT
              (bestScore, { st with
                tt := storeTT st.tt hash ((d : Int) + 1) bestScore type })

/-- The PVS child call of the root loop (lines 620-633): full window for the
first move, otherwise a null-window probe at child depth `d - 1` and ply 1,
re-searched with the full window when `score > alpha` (note: at the root the
re-search condition does not also require `score < beta`). -/
def rootPVS (C : Collab) (oracle : Nat → Bool) (d : Nat) (b2 : C.Pos)
    (alpha beta : Int) (firstMove : Bool) (st : SearchState) :
    Int × SearchState :=
  if firstMove then
    let r := alphaBeta C oracle (d - 1) b2 (-beta) (-alpha) 1 st
    (-r.1, r.2)
  else
    let r := alphaBeta C oracle (d - 1) b2 (-alpha - 1) (-alpha) 1 st
    let s := -r.1
    if s > alpha then
      let r2 := alphaBeta C oracle (d - 1) b2 (-beta) (-alpha) 1 r.2
      (-r2.1, r2.2)
    else (s, r.2)

/-- The root move loop of `Move` (lines 616-648): PVS at the root (factored
out as `rootPVS`), a poll after each unmake that discards the score just
computed when time has run out (line 637), and best-move/score/alpha
updates.  Returns the best move and the final state. -/
def rootLoop (C : Collab) (oracle : Nat → Bool) (b : C.Pos) (d : Nat) :
    List Mv → Int → Int → Int → Mv → Bool → SearchState → Mv × SearchState
  | [], _alpha, _beta, _bestScore, bestMove, _firstMove, st => (bestMove, st)
  | move :: rest, alpha, beta, bestScore, bestMove, firstMove, st =>
    let res := rootPVS C oracle d (C.makeMove b move) alpha beta firstMove st
    let score := res.1
    let poll := outOfTime oracle res.2
    let st := poll.2
    if poll.1 then (bestMove, st)
    else
      let acc := if score > bestScore then (score, move) else (bestScore, bestMove)
      let alpha := if score > alpha then score else alpha
      rootLoop C oracle b d rest alpha beta acc.1 acc.2 false st

/-- The iterative-deepening loop of `Move` (lines 604-649): for each depth,
poll the clock (line 606) and stop if out of time, re-order the root move
list with the current killer/history state (line 609), then run the root
PVS pass.  The re-ordered list is carried to the next iteration, as the C++
sorts the same `Movelist` in place. -/
def deepenLoop (C : Collab) (oracle : Nat → Bool) (b : C.Pos) :
    List Nat → List Mv → Mv → SearchState → Mv × SearchState
  | [], _moves, bestMove, st => (bestMove, st)
  | d :: ds, moves, bestMove, st =>
    let poll := outOfTime oracle st
    let st := poll.2
    if poll.1 then (bestMove, st)
    else
      let moves := orderMoves C st b moves 0
      let res := rootLoop C oracle b d moves (-INF) INF (-INF) bestMove true st
      deepenLoop C oracle b ds moves res.1 res.2

/-- Modelled from the spec: `chess::uci::moveToUci` — the collaborator's
`move_to_notation` (spec §6): "a move encoded in a standard four/five
character coordinate notation (UCI)": from-square, to-square, optional
promotion letter. -/
def squareToUci (sq : Nat) : List Char :=
  [Char.ofNat (97 + sq % 8), Char.ofNat (49 + sq / 8 % 8)]

/-- The promotion letter of a UCI move string. -/
def promoChar : Piece → List Char
  | .wn | .bn => ['n']
  | .wb | .bb => ['b']
  | .wr | .br => ['r']
  | .wq | .bq => ['q']
  | _ => []

/-- Modelled from the spec: UCI encoding of a move (spec §6). -/
def moveToUci (m : Mv) : String :=
  String.mk (squareToUci m.fromSq ++ squareToUci m.toSq ++
    (match m.promo with
     | some p => promoChar p
     | Option.none => []))

/-- `ChessSimulator::Move` (lines 589-651): parse, generate the legal moves,
return `""` when there are none; otherwise reset the clock, clear the
transposition table (killers and history are deliberately left as they are),
seed `bestMove` with `moves[0]` and iteratively deepen from 1 to
`MAX_DEPTH`.  The incoming `SearchState` is the engine's process-wide state;
the updated state is returned alongside the move string. -/
def Move (C : Collab) (oracle : Nat → Bool) (fen : String)
    (st0 : SearchState) : String × SearchState :=
  let b := C.parse fen
  let moves := C.legalMoves b
  match moves with
  | [] => ("", st0)
  | m0 :: _ =>
    let st := { st0 with tt := clearTT st0.tt, pollCount := 0 }
    let res := deepenLoop C oracle b ((List.range MAX_DEPTH).map (· + 1))
      moves m0 st
    (moveToUci res.1, res.2)

/-! ## Concrete instances and initial state used for witnesses -/

/-- The engine state at process start: the C++ globals are zero-initialised
(`transTable` entries have depth 0, killer slots hold default moves, history
counts are 0), and no polls have been made. -/
def initState : SearchState where
  tt := fun _ => ⟨0, 0, NodeType.EXACT⟩
  killers := fun _ => (Mv.null, Mv.null)
  history := fun _ _ _ => 0
  pollCount := 0

/-- A minimal collaborator instance: a single position with no legal moves
(a finished game). -/
def emptyToy : Collab where
  Pos := Unit
  pieceAt := fun _ _ => Piece.none
  sideToMove := fun _ => Color.white
  legalMoves := fun _ => []
  makeMove := fun p _ => p
  makeNullMove := fun p => p
  unmakeNullMove := fun p => p
  isCapture := fun _ _ => false
  gameOver := fun _ => GameResult.DRAW
  hash := fun _ => 0
  parse := fun _ => ()
  unmake_null := fun _ => rfl
  capMeasure := fun _ => 0
  capMeasure_lt := by intro p m h; simp at h

/-- A collaborator instance whose position has exactly one legal move
(a non-capture), used to witness the singleton-move driver property. -/
def oneToy : Collab where
  Pos := Unit
  pieceAt := fun _ _ => Piece.none
  sideToMove := fun _ => Color.white
  legalMoves := fun _ => [⟨8, 16, Option.none⟩]
  makeMove := fun p _ => p
  makeNullMove := fun p => p
  unmakeNullMove := fun p => p
  isCapture := fun _ _ => false
  gameOver := fun _ => GameResult.NONE
  hash := fun _ => 0
  parse := fun _ => ()
  unmake_null := fun _ => rfl
  capMeasure := fun _ => 0
  capMeasure_lt := by intro p m h; simp at h

/-- A quiet position: some legal moves, none of them captures, empty board
(so its static evaluation is 0). -/
def quietToy : Collab where
  Pos := Unit
  pieceAt := fun _ _ => Piece.none
  sideToMove := fun _ => Color.white
  legalMoves := fun _ => [⟨8, 16, Option.none⟩, ⟨1, 18, Option.none⟩]
  makeMove := fun p _ => p
  makeNullMove := fun p => p
  unmakeNullMove := fun p => p
  isCapture := fun _ _ => false
  gameOver := fun _ => GameResult.NONE
  hash := fun _ => 0
  parse := fun _ => ()
  unmake_null := fun _ => rfl
  capMeasure := fun _ => 0
  capMeasure_lt := by intro p m h; simp at h

/-- A game tree for mate-distance scoring, positions being numbered 1..6:
position 1 is an immediate loss for its mover (a mate delivered in one move
from the root); positions 2→3→4→5→6 form a forced line whose final position 6
is again a loss for its mover (a mate delivered in three moves from the
root).  Every move is a non-capture and the clock never expires. -/
def mateToy : Collab where
  Pos := Nat
  pieceAt := fun _ _ => Piece.none
  sideToMove := fun p => if p % 2 = 0 then Color.white else Color.black
  legalMoves := fun p => if 2 ≤ p ∧ p ≤ 5 then [⟨p, p + 1, Option.none⟩] else []
  makeMove := fun p _ => p + 1
  makeNullMove := fun p => p + 100
  unmakeNullMove := fun p => p - 100
  isCapture := fun _ _ => false
  gameOver := fun p => if p = 1 ∨ p = 6 then GameResult.LOSE else GameResult.NONE
  hash := fun p => p
  parse := fun _ => 0
  unmake_null := by intro p; simp
  capMeasure := fun _ => 0
  capMeasure_lt := by intro p m h; simp at h

/-- The mate-in-1 child position of `mateToy` (the opponent is to move and
has lost), reached at ply 1. -/
def mateIn1Pos : mateToy.Pos := (1 : Nat)

/-- The mate-in-3 child position of `mateToy`: the forced line 2→3→4→5→6
ends in a loss for the opponent at ply 5. -/
def mateIn3Pos : mateToy.Pos := (2 : Nat)

/-! ## Claim C4: transposition-table replacement policy -/

/-- C4: `storeTT` is depth-preferred: the slot at index `hash % TT_SIZE`
(= `hash & (TT_SIZE-1)`) is overwritten exactly when the stored entry's depth
is `≤` the incoming depth (all other slots are untouched); storing with a
strictly smaller depth leaves the table unchanged; and probing the same hash
immediately after a successful store returns the stored entry unchanged. -/
theorem storeTT_depth_preferred (tt : TTable) (hash : Nat) (depth score : Int)
    (type : NodeType) :
    (∀ i, storeTT tt hash depth score type i =
      if i = hash % TT_SIZE ∧ (probeTT tt hash).depth ≤ depth
      then ⟨depth, score, type⟩ else tt i) ∧
    (depth < (probeTT tt hash).depth → storeTT tt hash depth score type = tt) ∧
    ((probeTT tt hash).depth ≤ depth →
      probeTT (storeTT tt hash depth score type) hash = ⟨depth, score, type⟩) := by
  refine ⟨?_, ?_, ?_⟩
  · intro i
    by_cases hd : (probeTT tt hash).depth ≤ depth
    · simp only [storeTT, if_pos hd]
      by_cases hi : i = hash % TT_SIZE <;> simp [hi, hd]
    · simp [storeTT, hd]
  · intro h
    simp [storeTT, not_le.mpr h]
  · intro h
    rw [probeTT] at h
    simp [storeTT, probeTT, h]

/-- Witness for C4 at a concrete table, hash and depths. -/
theorem storeTT_depth_preferred_witness :
    probeTT (storeTT (fun _ => ⟨-1, 0, NodeType.EXACT⟩) 12345 3 77
      NodeType.LOWERBOUND) 12345 = ⟨3, 77, NodeType.LOWERBOUND⟩ :=
  (storeTT_depth_preferred (fun _ => ⟨-1, 0, NodeType.EXACT⟩) 12345 3 77
    NodeType.LOWERBOUND).2.2 (by decide)

/-! ## Claim C9: `evaluate` leaves the position unchanged -/

/-- C9: the null move applied by the mobility term is reversed before
`evaluate` returns: the state-passing evaluation hands back exactly the input
board (hence also its side to move and hash), and its score is the pure
`evaluate`. -/
theorem evaluateS_frame (C : Collab) (b : C.Pos) :
    (evaluateS C b).2 = b ∧ (evaluateS C b).1 = evaluate C b ∧
    C.sideToMove (evaluateS C b).2 = C.sideToMove b ∧
    C.hash (evaluateS C b).2 = C.hash b := by
  have h2 : (evaluateS C b).2 = b := by
    simp [evaluateS, evaluateMobilityS, C.unmake_null]
  refine ⟨h2, ?_, by rw [h2], by rw [h2]⟩
  simp [evaluateS, evaluate, evaluateMobilityS, evaluateMobility, C.unmake_null]

/-! ## Claims C5 and C10: quiescence on capture-free positions; fail-hard -/

/-- The quiescence loop ignores non-captures: on a move list with no
captures it returns `alpha` unchanged (lines 475-477). -/
theorem qloop_no_capture (C : Collab) (b : C.Pos)
    (qr : (b2 : C.Pos) → C.capMeasure b2 < C.capMeasure b → Int → Int → Int) :
    ∀ (l : List Mv) (alpha beta : Int),
      (∀ m ∈ l, C.isCapture b m = false) →
      qloop C b qr l alpha beta = alpha := by
  intro l
  induction l with
  | nil => intro alpha beta _; simp [qloop]
  | cons m rest ih =>
    intro alpha beta h
    have hm : C.isCapture b m = false := h m (by simp)
    simp only [qloop, hm]
    exact ih alpha beta (fun m' hm' => h m' (List.mem_cons_of_mem _ hm'))

/-- The quiescence loop keeps its running `alpha` inside `[alpha, beta]`:
it returns `beta` on a cutoff and otherwise the (only ever raised, and only
ever below `beta`) `alpha`. -/
theorem qloop_bounds (C : Collab) (b : C.Pos)
    (qr : (b2 : C.Pos) → C.capMeasure b2 < C.capMeasure b → Int → Int → Int)
    (beta : Int) :
    ∀ (l : List Mv) (alpha : Int), alpha ≤ beta →
      alpha ≤ qloop C b qr l alpha beta ∧ qloop C b qr l alpha beta ≤ beta := by
  intro l
  induction l with
  | nil => intro alpha h; simp [qloop]; exact h
  | cons m rest ih =>
    intro alpha h
    by_cases hc : C.isCapture b m = true
    · rw [qloop, dif_pos hc]
      dsimp only
      split
      · exact ⟨h, le_refl _⟩
      · rename_i hs
        split
        · rename_i hgt
          have h2 : -(qr (C.makeMove b m) (C.capMeasure_lt b m hc) (-beta) (-alpha)) ≤ beta := by
            omega
          have := ih _ h2
          exact ⟨le_trans (le_of_lt hgt) this.1, this.2⟩
        · exact ih alpha h
    · rw [qloop, dif_neg hc]
      exact ih alpha h

/-- C10: quiescence is fail-hard — for every window `alpha ≤ beta` the value
returned by `quiescence` lies in `[alpha, beta]`. -/
theorem quiescence_fail_hard (C : Collab) (b : C.Pos) (alpha beta : Int)
    (h : alpha ≤ beta) :
    alpha ≤ quiescence C b alpha beta ∧ quiescence C b alpha beta ≤ beta := by
  rw [quiescence]
  split
  · exact ⟨h, le_refl _⟩
  · rename_i hsp
    have hsp' : evaluate C b < beta := by omega
    by_cases hae : alpha < evaluate C b
    · rw [if_pos hae]
      have := qloop_bounds C b (fun b2 _ a2 b3 => quiescence C b2 a2 b3) beta
        (C.legalMoves b) (evaluate C b) (le_of_lt hsp')
      exact ⟨le_trans (le_of_lt hae) this.1, this.2⟩
    · rw [if_neg hae]
      exact qloop_bounds C b (fun b2 _ a2 b3 => quiescence C b2 a2 b3) beta
        (C.legalMoves b) alpha h

/-- Witness for C10 on a concrete capture-free position and window. -/
theorem quiescence_fail_hard_witness :
    5 ≤ quiescence quietToy () 5 10 ∧ quiescence quietToy () 5 10 ≤ 10 :=
  quiescence_fail_hard quietToy () 5 10 (by decide)

/-- On a position with zero legal captures `quiescence` returns the stand-pat
static evaluation clamped into the window: `beta` when the evaluation reaches
`beta`, the unchanged `alpha` when the evaluation does not exceed it, and the
evaluation itself otherwise (lines 463-491 with an empty capture loop). -/
theorem quiescence_standpat_clamp (C : Collab) (b : C.Pos) (alpha beta : Int)
    (hab : alpha ≤ beta)
    (h : ∀ m ∈ C.legalMoves b, C.isCapture b m = false) :
    quiescence C b alpha beta = max alpha (min beta (evaluate C b)) := by
  rw [quiescence]
  split
  · rename_i hsp
    rw [min_eq_left (by omega), max_eq_right hab]
  · rename_i hsp
    rw [qloop_no_capture C b (fun b2 _ a2 b3 => quiescence C b2 a2 b3)
      (C.legalMoves b) _ beta h]
    rw [min_eq_right (by omega)]
    by_cases hae : alpha < evaluate C b
    · rw [if_pos hae, max_eq_right (le_of_lt hae)]
    · rw [if_neg hae, max_eq_left (le_of_not_lt hae)]

/-- C5 (amended): on a position with zero legal capture moves, `quiescence`
returns the stand-pat evaluation clamped to the window `[alpha, beta]`; in
particular it equals `evaluate` exactly when the evaluation already lies
inside the window. -/
theorem quiescence_no_capture_standpat (C : Collab) (b : C.Pos)
    (alpha beta : Int) (hab : alpha ≤ beta)
    (h : ∀ m ∈ C.legalMoves b, C.isCapture b m = false) :
    quiescence C b alpha beta = max alpha (min beta (evaluate C b)) :=
  quiescence_standpat_clamp C b alpha beta hab h

/-- Witness for C5 (amended) on a concrete capture-free position. -/
theorem quiescence_no_capture_standpat_witness :
    quiescence quietToy () 5 10 = max 5 (min 10 (evaluate quietToy ())) :=
  quiescence_no_capture_standpat quietToy () 5 10 (by decide) (by decide)

/-- Counterexample to C5 as stated: `quietToy`'s position has zero legal
captures, yet with window `(5, 10)` quiescence returns `5` (the floor
`alpha`), not the static evaluation `0`: the stand-pat value is only
returned when it falls inside the window. -/
theorem quiescence_standpat_cex :
    (∀ m ∈ quietToy.legalMoves (), quietToy.isCapture () m = false) ∧
    quiescence quietToy () 5 10 ≠ evaluate quietToy () := by
  refine ⟨by decide, ?_⟩
  rw [quiescence_standpat_clamp quietToy () 5 10 (by decide) (by decide)]
  decide

/-! ## Claim C3: mate-distance scoring -/

/-- C3: at a node that is reached in time and still has depth to search, a
lost game (checkmate of the side to move, as detected by the collaborator)
scores exactly `-MATE_SCORE + ply` and a drawn terminal node scores exactly
`0` (lines 501-507); consequently, in the `mateToy` game tree, the root move
leading to a mate in 1 (opponent lost at ply 1) is scored `MATE_SCORE - 1` by
the searching side, strictly higher than `MATE_SCORE - 5` for the root move
leading to a forced mate in 3 (opponent lost at ply 5). -/
theorem alphaBeta_mate_scoring :
    (∀ (C : Collab) (oracle : Nat → Bool) (d : Nat) (b : C.Pos)
        (alpha beta : Int) (ply : Nat) (st : SearchState),
      oracle st.pollCount = false → C.gameOver b = GameResult.LOSE →
      (alphaBeta C oracle (d + 1) b alpha beta ply st).1 = -MATE_SCORE + ply) ∧
    (∀ (C : Collab) (oracle : Nat → Bool) (d : Nat) (b : C.Pos)
        (alpha beta : Int) (ply : Nat) (st : SearchState),
      oracle st.pollCount = false → C.gameOver b = GameResult.DRAW →
      (alphaBeta C oracle (d + 1) b alpha beta ply st).1 = 0) ∧
    (-(alphaBeta mateToy (fun _ => false) 5 mateIn1Pos (-INF) INF 1
        initState).1 = MATE_SCORE - 1 ∧
     -(alphaBeta mateToy (fun _ => false) 5 mateIn3Pos (-INF) INF 1
        initState).1 = MATE_SCORE - 5 ∧
     MATE_SCORE - 1 > MATE_SCORE - 5) := by
  refine ⟨?_, ?_, by decide⟩
  · intro C oracle d b alpha beta ply st hpoll hover
    simp [alphaBeta, outOfTime, hpoll, hover]
  · intro C oracle d b alpha beta ply st hpoll hover
    simp [alphaBeta, outOfTime, hpoll, hover]

/-- Witness for C3's hypothesis-bearing parts, at concrete lost and drawn
nodes. -/
theorem alphaBeta_mate_scoring_witness :
    (alphaBeta mateToy (fun _ => false) 5 mateIn1Pos (-INF) INF 1
      initState).1 = -MATE_SCORE + 1 ∧
    (alphaBeta emptyToy (fun _ => false) 1 (emptyToy.parse "") (-INF) INF 3
      initState).1 = 0 :=
  ⟨alphaBeta_mate_scoring.1 mateToy (fun _ => false) 4 mateIn1Pos (-INF) INF 1
      initState rfl (by decide),
   alphaBeta_mate_scoring.2.1 emptyToy (fun _ => false) 0 (emptyToy.parse "")
      (-INF) INF 3 initState rfl (by decide)⟩

/-! ## Claim C6: move-ordering priorities -/

/-- Every piece value is non-negative. -/
theorem pieceValue_nonneg (p : Piece) : 0 ≤ pieceValue p := by
  cases p <;> decide

/-- Every piece value is at most 900 (the queen's value). -/
theorem pieceValue_le (p : Piece) : pieceValue p ≤ 900 := by
  cases p <;> decide

/-- A collaborator instance for the move-ordering claims: position `p > 0`
has a capture move `⟨8,16⟩` (which consumes one unit of material) and a
non-capture move `⟨1,18⟩`. -/
def histToy : Collab where
  Pos := Nat
  pieceAt := fun _ _ => Piece.none
  sideToMove := fun _ => Color.white
  legalMoves := fun p =>
    if 0 < p then [⟨8, 16, Option.none⟩, ⟨1, 18, Option.none⟩] else []
  makeMove := fun p _ => p - 1
  makeNullMove := fun p => p
  unmakeNullMove := fun p => p
  isCapture := fun p m => decide (0 < p) && decide (m = ⟨8, 16, Option.none⟩)
  gameOver := fun _ => GameResult.NONE
  hash := fun p => p
  parse := fun _ => 1
  unmake_null := fun _ => rfl
  capMeasure := fun p => p
  capMeasure_lt := by
    intro p m h
    simp at h
    obtain ⟨h1, -⟩ := h
    show p - 1 < p
    omega

/-- The position of `histToy` with both moves available. -/
def histPos : histToy.Pos := (1 : Nat)

/-- An engine state whose history table holds a very large accumulated count
for the non-capture move (side 0, from 1, to 18) — reachable in principle
because the history table is never reset during the engine's lifetime. -/
def bigHistState : SearchState :=
  { initState with
    history := fun s f t => if s = 0 ∧ f = 1 ∧ t = 18 then 200000 else 0 }

/-- C6 (amended): the move-ordering priority is `100000 + (victim value −
attacker value)` for captures, `90000`/`80000` for first/second killer-slot
matches, and the accumulated history count otherwise; and a capture outranks
a non-capture provided the non-capture's history count is below `99100`
(`= 100000 −` the maximum piece value `900`) — without that bound a
sufficiently grown history count can outrank captures. -/
theorem scoreMove_priorities (C : Collab) (st : SearchState) (b : C.Pos)
    (m mc mn : Mv) (depth : Nat) :
    (C.isCapture b m = true →
      scoreMove C st b m depth = 100000 + captureScore C b m) ∧
    (C.isCapture b m = false → m = (st.killers depth).1 →
      scoreMove C st b m depth = 90000) ∧
    (C.isCapture b m = false → m ≠ (st.killers depth).1 →
      m = (st.killers depth).2 → scoreMove C st b m depth = 80000) ∧
    (C.isCapture b m = false → m ≠ (st.killers depth).1 →
      m ≠ (st.killers depth).2 →
      scoreMove C st b m depth =
        st.history (sideIdx (C.sideToMove b)) m.fromSq m.toSq) ∧
    (C.isCapture b mc = true → C.isCapture b mn = false →
      st.history (sideIdx (C.sideToMove b)) mn.fromSq mn.toSq < 99100 →
      scoreMove C st b mn depth < scoreMove C st b mc depth) := by
  refine ⟨?_, ?_, ?_, ?_, ?_⟩
  · intro h; simp [scoreMove, h]
  · intro h hk
    simp only [scoreMove, h, Bool.false_eq_true, if_false]
    rw [if_pos hk]
  · intro h hk1 hk2
    simp only [scoreMove, h, Bool.false_eq_true, if_false]
    rw [if_neg hk1, if_pos hk2]
  · intro h hk1 hk2
    simp only [scoreMove, h, Bool.false_eq_true, if_false]
    rw [if_neg hk1, if_neg hk2]
  · intro hc hn hh
    have h1 : scoreMove C st b mc depth = 100000 + captureScore C b mc := by
      simp [scoreMove, hc]
    have hcap : 99100 ≤ scoreMove C st b mc depth := by
      rw [h1]
      unfold captureScore
      have hv := pieceValue_nonneg (C.pieceAt b mc.toSq)
      have ha := pieceValue_le (C.pieceAt b mc.fromSq)
      omega
    have hncap : scoreMove C st b mn depth < 99100 := by
      simp only [scoreMove, hn, Bool.false_eq_true, if_false]
      split
      · omega
      · split
        · omega
        · exact hh
    omega

/-- Witness for C6 (amended) at a concrete capture/non-capture pair with
fresh (zero) history. -/
theorem scoreMove_priorities_witness :
    scoreMove histToy initState histPos ⟨1, 18, Option.none⟩ 0 <
      scoreMove histToy initState histPos ⟨8, 16, Option.none⟩ 0 :=
  (scoreMove_priorities histToy initState histPos Mv.null
    ⟨8, 16, Option.none⟩ ⟨1, 18, Option.none⟩ 0).2.2.2.2
    (by decide) (by decide) (by decide)

/-- Counterexample to C6 as stated: with a sufficiently large accumulated
history count (here 200000 — the table is never reset during the engine's
lifetime), a non-capture move outranks a capture move. -/
theorem scoreMove_capture_not_always_top :
    histToy.isCapture histPos ⟨8, 16, Option.none⟩ = true ∧
    histToy.isCapture histPos ⟨1, 18, Option.none⟩ = false ∧
    scoreMove histToy bigHistState histPos ⟨1, 18, Option.none⟩ 0 >
      scoreMove histToy bigHistState histPos ⟨8, 16, Option.none⟩ 0 := by
  decide

/-! ## Claim C7: `evaluate` under a colour flip -/

/-- Swap the colour of a piece. -/
def Piece.colorFlip : Piece → Piece
  | .wp => .bp
  | .wn => .bn
  | .wb => .bb
  | .wr => .br
  | .wq => .bq
  | .wk => .bk
  | .bp => .wp
  | .bn => .wn
  | .bb => .wb
  | .br => .wr
  | .bq => .wq
  | .bk => .wk
  | .none => .none

/-- A collaborator instance exposing a position and its colour-flipped mirror
(the implementation's own `63 - i` convention): the base position has White
king e1 (4), White queen d1 (3), Black king e8 (60) with Black to move; the
mirror (first component `true`) has the same material colour-swapped on the
mirrored squares with White to move.  The second component is the null-move
flag toggled by `makeNullMove`.  The legal-move counts are those of the real
chess positions: 3 for the mirror's White (king boxed in by the enemy
queen), 21 for the mirror's Black after a null move, and 5 resp. 17 for the
base position (the counts of the base position do not matter: the engine's
mobility term is structurally 0 for any black-to-move position). -/
def flipToy : Collab where
  Pos := Bool × Bool
  pieceAt := fun pr i =>
    if pr.1 then
      if i = 60 then Piece.bq
      else if i = 59 then Piece.bk
      else if i = 3 then Piece.wk
      else Piece.none
    else
      if i = 3 then Piece.wq
      else if i = 4 then Piece.wk
      else if i = 60 then Piece.bk
      else Piece.none
  sideToMove := fun pr =>
    let base := if pr.1 then Color.white else Color.black
    if pr.2 then base.flip else base
  legalMoves := fun pr =>
    match pr with
    | (true, false) => List.replicate 3 Mv.null
    | (true, true) => List.replicate 21 Mv.null
    | (false, false) => List.replicate 5 Mv.null
    | (false, true) => List.replicate 17 Mv.null
  makeMove := fun p _ => p
  makeNullMove := fun pr => (pr.1, !pr.2)
  unmakeNullMove := fun pr => (pr.1, !pr.2)
  isCapture := fun _ _ => false
  gameOver := fun _ => GameResult.NONE
  hash := fun _ => 0
  parse := fun _ => (false, false)
  unmake_null := by intro p; simp
  capMeasure := fun _ => 0
  capMeasure_lt := by intro p m h; simp at h

/-- The base position of `flipToy` (Black to move). -/
def flipBase : flipToy.Pos := ((false, false) : Bool × Bool)

/-- The colour-flipped mirror of `flipBase` (White to move). -/
def flipMirror : flipToy.Pos := ((true, false) : Bool × Bool)

/-- C7 fails on the code: `flipMirror` is exactly the colour-flip of
`flipBase` under the implementation's own `63 - i` mirroring (first two
conjuncts), yet `evaluate` does not negate: the base position evaluates to
`-895` while its mirror evaluates to `-931`, because `evaluateMobility`
returns 0 for every black-to-move position (both its guards read the side to
move on the wrong side of the null move) while the white-to-move mirror
receives the full mobility term. -/
theorem evaluate_not_antisymmetric :
    (∀ i : Fin 64, flipToy.pieceAt flipMirror (i : Nat) =
      Piece.colorFlip (flipToy.pieceAt flipBase (63 - (i : Nat)))) ∧
    flipToy.sideToMove flipMirror = (flipToy.sideToMove flipBase).flip ∧
    evaluate flipToy flipBase = -895 ∧
    evaluate flipToy flipMirror = -931 ∧
    evaluate flipToy flipMirror ≠ -evaluate flipToy flipBase := by
  decide

/-! ## Claims C1 and C2: the driver's returned move -/

/-- A UCI move string is never empty (it has at least the four coordinate
characters). -/
theorem moveToUci_ne_empty (m : Mv) : moveToUci m ≠ "" := by
  intro h
  have h2 := congrArg String.data h
  simp [moveToUci, squareToUci] at h2

/-- Membership is preserved by the insertion step of the ordering sort. -/
theorem mem_insertDesc {key : Mv → Int} {m a : Mv} :
    ∀ {l : List Mv}, a ∈ insertDesc key m l ↔ a = m ∨ a ∈ l := by
  intro l
  induction l with
  | nil => simp [insertDesc]
  | cons x xs ih =>
    simp only [insertDesc]
    split
    · simp [List.mem_cons]
    · simp only [List.mem_cons, ih]
      tauto

/-- Sorting is a permutation as far as membership is concerned. -/
theorem mem_sortDesc {key : Mv → Int} {a : Mv} :
    ∀ {l : List Mv}, a ∈ sortDesc key l ↔ a ∈ l := by
  intro l
  induction l with
  | nil => simp [sortDesc]
  | cons x xs ih => simp [sortDesc, mem_insertDesc, ih]

/-- `orderMoves` only reorders: it has the same members as its input. -/
theorem mem_orderMoves {C : Collab} {st : SearchState} {b : C.Pos}
    {l : List Mv} {d : Nat} {a : Mv} : a ∈ orderMoves C st b l d ↔ a ∈ l := by
  simp [orderMoves, mem_sortDesc]

/-- The root loop only ever returns its incoming best move or a move of its
move list. -/
theorem rootLoop_mem (C : Collab) (oracle : Nat → Bool) (b : C.Pos) (d : Nat)
    (S : List Mv) (beta : Int) :
    ∀ (l : List Mv) (alpha bestScore : Int) (bestMove : Mv) (firstMove : Bool)
      (st : SearchState),
      bestMove ∈ S → (∀ x ∈ l, x ∈ S) →
      (rootLoop C oracle b d l alpha beta bestScore bestMove firstMove st).1 ∈ S := by
  intro l
  induction l with
  | nil => intro alpha bs bm fm st h1 _; simpa [rootLoop] using h1
  | cons m rest ih =>
    intro alpha bs bm fm st h1 h2
    simp only [rootLoop]
    split
    · exact h1
    · apply ih
      · split
        · exact h2 m (by simp)
        · exact h1
      · intro x hx; exact h2 x (List.mem_cons_of_mem _ hx)

/-- The iterative deepening loop returns a member of `S` whenever its seed
move and all moves of its (re-ordered each iteration) list are in `S`. -/
theorem deepenLoop_mem (C : Collab) (oracle : Nat → Bool) (b : C.Pos)
    (S : List Mv) :
    ∀ (ds : List Nat) (moves : List Mv) (bestMove : Mv) (st : SearchState),
      bestMove ∈ S → (∀ x ∈ moves, x ∈ S) →
      (deepenLoop C oracle b ds moves bestMove st).1 ∈ S := by
  intro ds
  induction ds with
  | nil => intro moves bm st h1 _; simpa [deepenLoop] using h1
  | cons d rest ih =>
    intro moves bm st h1 h2
    simp only [deepenLoop]
    split
    · exact h1
    · apply ih
      · apply rootLoop_mem
        · exact h1
        · intro x hx; exact h2 x (mem_orderMoves.mp hx)
      · intro x hx; exact h2 x (mem_orderMoves.mp hx)

/-- C1: for every position string, every time oracle (hence every time
budget) and every incoming engine state, `Move` returns the empty string
exactly when the parsed position has zero legal moves; and when a legal move
exists the returned string is the UCI encoding of some legal move. -/
theorem Move_empty_or_legal (C : Collab) (oracle : Nat → Bool) (fen : String)
    (st : SearchState) :
    ((Move C oracle fen st).1 = "" ↔ C.legalMoves (C.parse fen) = []) ∧
    (C.legalMoves (C.parse fen) ≠ [] →
      ∃ m ∈ C.legalMoves (C.parse fen),
        (Move C oracle fen st).1 = moveToUci m) := by
  rcases hmoves : C.legalMoves (C.parse fen) with _ | ⟨m0, rest⟩
  · constructor
    · simp [Move, hmoves]
    · intro h; exact absurd rfl h
  · have hmem := deepenLoop_mem C oracle (C.parse fen) (m0 :: rest)
      ((List.range MAX_DEPTH).map (· + 1)) (m0 :: rest) m0
      { st with tt := clearTT st.tt, pollCount := 0 } (by simp) (fun x hx => hx)
    have key : ∃ mm ∈ (m0 :: rest : List Mv),
        (Move C oracle fen st).1 = moveToUci mm :=
      ⟨_, hmem, by simp [Move, hmoves]⟩
    obtain ⟨mm, hmm, hform⟩ := key
    constructor
    · constructor
      · intro h
        rw [hform] at h
        exact absurd h (moveToUci_ne_empty mm)
      · intro h
        simp at h
    · intro _
      exact ⟨mm, hmm, hform⟩

/-- Witness for C1: on a position with no legal moves the driver returns
`""`; on a position with legal moves it returns the UCI of a legal move. -/
theorem Move_empty_or_legal_witness :
    (Move emptyToy (fun _ => true) "8/8/8/8/8/8/8/8 w - - 0 1" initState).1 = "" ∧
    ∃ m ∈ oneToy.legalMoves (oneToy.parse "fen"),
      (Move oneToy (fun _ => true) "fen" initState).1 = moveToUci m :=
  ⟨(Move_empty_or_legal emptyToy (fun _ => true) "8/8/8/8/8/8/8/8 w - - 0 1"
      initState).1.mpr rfl,
   (Move_empty_or_legal oneToy (fun _ => true) "fen" initState).2 (by decide)⟩

/-- C2: for every position with exactly one legal move, `Move` returns that
move's UCI encoding — never the empty string — under every time oracle
(including the always-expired oracle that models a 0 ms budget). -/
theorem Move_singleton (C : Collab) (oracle : Nat → Bool) (fen : String)
    (st : SearchState) (m : Mv) (h : C.legalMoves (C.parse fen) = [m]) :
    (Move C oracle fen st).1 = moveToUci m ∧ (Move C oracle fen st).1 ≠ "" := by
  have hmem := deepenLoop_mem C oracle (C.parse fen) [m]
    ((List.range MAX_DEPTH).map (· + 1)) [m] m
    { st with tt := clearTT st.tt, pollCount := 0 } (by simp) (fun x hx => hx)
  have heq : (deepenLoop C oracle (C.parse fen)
      ((List.range MAX_DEPTH).map (· + 1)) [m] m
      { st with tt := clearTT st.tt, pollCount := 0 }).1 = m := by
    simpa using hmem
  constructor
  · simp [Move, h, heq]
  · simp [Move, h, heq]
    exact moveToUci_ne_empty m

/-- Witness for C2: with an immediately-expired clock (a 0 ms budget) the
single legal move is still returned. -/
theorem Move_singleton_witness :
    (Move oneToy (fun _ => true) "fen" initState).1 =
      moveToUci ⟨8, 16, Option.none⟩ ∧
    (Move oneToy (fun _ => true) "fen" initState).1 ≠ "" :=
  Move_singleton oneToy (fun _ => true) "fen" initState
    ⟨8, 16, Option.none⟩ rfl

/-! ## Claim C8: the history table never decreases -/

/-- Pointwise order between the history tables of two engine states. -/
def histLE (st st2 : SearchState) : Prop :=
  ∀ s f t, st.history s f t ≤ st2.history s f t

/-- `histLE` is reflexive. -/
theorem histLE_refl (st : SearchState) : histLE st st := fun _ _ _ => le_refl _

/-- `histLE` is transitive. -/
theorem histLE_trans {a b c : SearchState} (h1 : histLE a b) (h2 : histLE b c) :
    histLE a c := fun s f t => le_trans (h1 s f t) (h2 s f t)

/-- The killer/history update only ever adds the non-negative `depth²` to one
history entry. -/
theorem killerHistUpdate_hist (C : Collab) (b : C.Pos) (move : Mv)
    (nd ply : Nat) (st : SearchState) :
    histLE st (killerHistUpdate C b move nd ply st) := by
  intro s f t
  unfold killerHistUpdate
  split
  · exact le_refl _
  · dsimp only
    split
    · have : (0 : Int) ≤ (nd : Int) * nd := mul_self_nonneg _
      omega
    · exact le_refl _

/-- The PVS block preserves history growth whenever the child search does. -/
theorem abPVS_hist (C : Collab)
    (child : C.Pos → Int → Int → Nat → SearchState → Int × SearchState)
    (hchild : ∀ b2 a2 b3 p2 s2, histLE s2 (child b2 a2 b3 p2 s2).2)
    (b2 : C.Pos) (alpha beta : Int) (ply : Nat) (fm : Bool)
    (st : SearchState) : histLE st (abPVS C child b2 alpha beta ply fm st).2 := by
  unfold abPVS
  split
  · exact hchild _ _ _ _ _
  · dsimp only
    split
    · exact histLE_trans (hchild _ _ _ _ _) (hchild _ _ _ _ _)
    · exact hchild _ _ _ _ _

/-- The alpha-beta move loop never decreases a history entry (it only applies
child searches and `killerHistUpdate`). -/
theorem abLoop_hist (C : Collab)
    (child : C.Pos → Int → Int → Nat → SearchState → Int × SearchState)
    (hchild : ∀ b2 a2 b3 p2 s2, histLE s2 (child b2 a2 b3 p2 s2).2)
    (b : C.Pos) (nd ply : Nat) (beta : Int) :
    ∀ (l : List Mv) (alpha bs : Int) (fm : Bool) (st : SearchState),
      histLE st (abLoop C child b nd ply beta l alpha bs fm st).2.2 := by
  intro l
  induction l with
  | nil => intro alpha bs fm st; exact histLE_refl st
  | cons m rest ih =>
    intro alpha bs fm st
    simp only [abLoop]
    have h1 : histLE st (abPVS C child (C.makeMove b m) alpha beta ply fm st).2 :=
      abPVS_hist C child hchild _ alpha beta ply fm st
    have h2 : histLE st (killerHistUpdate C b m nd ply
        (abPVS C child (C.makeMove b m) alpha beta ply fm st).2) :=
      histLE_trans h1 (killerHistUpdate_hist C b m nd ply _)
    split
    · split
      · exact h2
      · exact histLE_trans h2 (ih _ _ _ _)
    · split
      · exact h1
      · exact histLE_trans h1 (ih _ _ _ _)

/-- `alphaBeta` never decreases a history entry. -/
theorem alphaBeta_hist (C : Collab) (oracle : Nat → Bool) :
    ∀ (depth : Nat) (b : C.Pos) (alpha beta : Int) (ply : Nat) (st : SearchState),
      histLE st (alphaBeta C oracle depth b alpha beta ply st).2 := by
  intro depth
  induction depth with
  | zero =>
    intro b alpha beta ply st
    simp only [alphaBeta]
    split
    · exact fun _ _ _ => le_refl _
    · exact fun _ _ _ => le_refl _
  | succ d ih =>
    intro b alpha beta ply st
    simp only [alphaBeta]
    split
    · exact fun _ _ _ => le_refl _
    · cases hC : C.gameOver b <;> simp only [hC]
      · repeat' split
        all_goals
          first
          | exact fun _ _ _ => le_refl _
          | exact fun s f t => abLoop_hist C
              (fun b2 a2 b3 p2 s2 => alphaBeta C oracle d b2 a2 b3 p2 s2)
              (fun b2 a2 b3 p2 s2 => ih b2 a2 b3 p2 s2) b (d + 1) ply _ _ _ _
              _ _ s f t
      · exact fun _ _ _ => le_refl _
      · exact fun _ _ _ => le_refl _

/-- The root PVS block never decreases a history entry. -/
theorem rootPVS_hist (C : Collab) (oracle : Nat → Bool) (d : Nat) (b2 : C.Pos)
    (alpha beta : Int) (fm : Bool) (st : SearchState) :
    histLE st (rootPVS C oracle d b2 alpha beta fm st).2 := by
  unfold rootPVS
  split
  · exact alphaBeta_hist C oracle _ _ _ _ _ _
  · dsimp only
    split
    · exact histLE_trans (alphaBeta_hist C oracle _ _ _ _ _ _)
        (alphaBeta_hist C oracle _ _ _ _ _ _)
    · exact alphaBeta_hist C oracle _ _ _ _ _ _

/-- The root move loop never decreases a history entry. -/
theorem rootLoop_hist (C : Collab) (oracle : Nat → Bool) (b : C.Pos) (d : Nat)
    (beta : Int) :
    ∀ (l : List Mv) (alpha bs : Int) (bm : Mv) (fm : Bool) (st : SearchState),
      histLE st (rootLoop C oracle b d l alpha beta bs bm fm st).2 := by
  intro l
  induction l with
  | nil => intro alpha bs bm fm st; exact histLE_refl st
  | cons m rest ih =>
    intro alpha bs bm fm st
    simp only [rootLoop]
    have h1 : histLE st (rootPVS C oracle d (C.makeMove b m) alpha beta fm st).2 :=
      rootPVS_hist C oracle d _ alpha beta fm st
    split
    · exact h1
    · exact histLE_trans h1 (ih _ _ _ _ _)

/-- The iterative deepening loop never decreases a history entry. -/
theorem deepenLoop_hist (C : Collab) (oracle : Nat → Bool) (b : C.Pos) :
    ∀ (ds : List Nat) (moves : List Mv) (bm : Mv) (st : SearchState),
      histLE st (deepenLoop C oracle b ds moves bm st).2 := by
  intro ds
  induction ds with
  | nil => intro moves bm st; exact histLE_refl st
  | cons d rest ih =>
    intro moves bm st
    simp only [deepenLoop]
    split
    · exact fun _ _ _ => le_refl _
    · have hr := rootLoop_hist C oracle b d INF
        (orderMoves C (outOfTime oracle st).2 b moves 0) (-INF) (-INF) bm true
        ((outOfTime oracle st).2)
      exact histLE_trans hr (ih _ _ _)

/-- C8: every entry of the history table is monotonically non-decreasing
across a whole top-level `Move` call (and hence across any sequence of them,
i.e. over the engine's lifetime): the table is only ever incremented — by
`depth²` in `killerHistUpdate` when a non-capture move improves alpha — and
the initialisation of a `Move` call clears only the transposition table,
never the history. -/
theorem Move_history_nondecreasing (C : Collab) (oracle : Nat → Bool)
    (fen : String) (st : SearchState) :
    ∀ s f t, st.history s f t ≤ ((Move C oracle fen st).2).history s f t := by
  rcases hmoves : C.legalMoves (C.parse fen) with _ | ⟨m0, rest⟩ <;>
    simp only [Move, hmoves]
  · exact fun _ _ _ => le_refl _
  · exact fun s f t => deepenLoop_hist C oracle (C.parse fen) _ _ _ _ s f t
